import Mathlib

/-!
Verification of the dkm key-management core (internal/keymgr/keymgr.go,
internal/store/sqlite.go, internal/web/web.go).

The Go code is shallowly embedded as executable Lean definitions.  Library
cryptography (Argon2id, XChaCha20-Poly1305, secp256k1, BIP32, BIP39) lives
outside the repository and is modelled symbolically, by its contract:

* An AEAD ciphertext is a record of the KDF inputs (password, salt), the
  nonce and the plaintext; opening succeeds exactly when password, salt and
  nonce all match, and any mismatch produces the same failure, mirroring
  `aead.Open` returning a single opaque error.
* A BIP32 extended key is a (seed bytes, derivation path) pair;
  `PrivateCKD` appends indices to the path; the EC public/private key and
  the WIF serialization are injective encodings of that pair.
* The BIP39 seed of a mnemonic is an injective byte encoding of the words;
  only the 24-word length check is modelled (wordlist/checksum validation
  happens inside the bip39 library).

Stateful parts (the sqlite tables, the in-memory session map, the cached
master key) become a `KmState` record; randomness (salts, nonces, fresh
tokens, generated mnemonics) and the current time are passed as explicit
arguments, standing for the values drawn from `crypto/rand` and
`time.Now()` in the Go code.
-/

namespace DKM

abbrev Bytes := List Nat

/-- Association-list lookup by key (first match), modelling a map/table read. -/
def lookupA {α β : Type} [DecidableEq α] (k : α) : List (α × β) → Option β
  | [] => none
  | (k0, v0) :: rest => if k0 = k then some v0 else lookupA k rest

/-- Association-list insert-or-replace, modelling Go map assignment and the
SQL UPDATE branch of SetKey. -/
def setA {α β : Type} [DecidableEq α] (k : α) (v : β) : List (α × β) → List (α × β)
  | [] => [(k, v)]
  | (k0, v0) :: rest => if k0 = k then (k, v) :: rest else (k0, v0) :: setA k v rest

/-- Association-list delete, modelling Go `delete(m, k)`. -/
def delA {α β : Type} [DecidableEq α] (k : α) (l : List (α × β)) : List (α × β) :=
  l.filter (fun p => !(decide (p.1 = k)))

/-- Error kinds of the keymgr/store error taxonomy (keymgr.go:34-42,
internal/store.go sentinel errors, bip39 parse errors collapsed to the
length case used here). -/
inductive Err where
  | outOfEntropy
  | wrongPassword
  | badToken
  | keyExists
  | tooManyAttempts
  | wrongMnemonic
  | noKey
  | wrongToken
  | badKey
  | notFound
  | alreadyExists
  | dbConflict
  | mnemonicLength
deriving DecidableEq, Repr

/-- Symbolic XChaCha20-Poly1305 ciphertext as produced by keymgr.encryptKey:
it binds the Argon2id inputs (password, salt), the nonce and the plaintext.
This is the AEAD contract: `Open` recovers the plaintext exactly when the
recomputed key (password, salt) and the nonce match. -/
structure Ct where
  pass : String
  salt : Bytes
  nonce : Bytes
  plain : Bytes
deriving DecidableEq, Repr

/-- keymgr.go:404-428 `encryptKey`: seal `secret` under `pass`; `salt` (16
random bytes) and `nonce` (24 random bytes) are the freshly drawn values
and are returned alongside the ciphertext. -/
def encryptKey (secret : Bytes) (pass : String) (salt nonce : Bytes) :
    Bytes × Bytes × Ct :=
  (salt, nonce, ⟨pass, salt, nonce, secret⟩)

/-- keymgr.go:367-387 `decryptKey`: recompute the Argon2id key from
(pass, salt) and attempt the AEAD open; ANY open failure is mapped to
`ErrWrongPassword` (keymgr.go:382-385).  `none` stands for a stored blob
that is not a well-formed ciphertext (e.g. the empty blob written by the
lazy path of MakeDelegate); opening it fails the same way, matching the
AEAD rejecting a truncated/garbage input. -/
def decryptKey (salt nonce : Bytes) (enc : Option Ct) (pass : String) :
    Except Err Bytes :=
  match enc with
  | none => .error .wrongPassword
  | some c =>
    if c.pass = pass ∧ c.salt = salt ∧ c.nonce = nonce then .ok c.plain
    else .error .wrongPassword

/-- doge.HardenedKey: first hardened BIP32 index. -/
def HardenedKey : Nat := 2 ^ 31

/-- Symbolic BIP32 extended private key: the master seed bytes plus the
derivation path from the master. -/
structure Bip32Key where
  seed : Bytes
  path : List Nat
deriving DecidableEq, Repr

/-- doge.Bip32Key.PrivateCKD (symbolic): child derivation extends the path. -/
def PrivateCKD (k : Bip32Key) (idxs : List Nat) : Bip32Key :=
  ⟨k.seed, k.path ++ idxs⟩

/-- doge.Bip32Key.GetECPubKey (symbolic): 33-byte compressed public key,
modelled as an injective, never-empty encoding of the key. -/
def GetECPubKey (k : Bip32Key) : Bytes :=
  2 :: k.seed.length :: (k.seed ++ k.path)

/-- doge.Bip32Key.GetECPrivKey (symbolic): 32-byte EC private key, an
injective encoding distinct from the public encoding. -/
def GetECPrivKey (k : Bip32Key) : Bytes :=
  3 :: k.seed.length :: (k.seed ++ k.path)

/-- doge.Bip32Key.EncodeWIF (symbolic): textual xprv serialization as bytes,
an injective encoding with a matching decoder. -/
def EncodeWIF (k : Bip32Key) : Bytes :=
  k.seed.length :: (k.seed ++ k.path)

/-- doge.DecodeBip32WIF (symbolic): inverse of `EncodeWIF`; fails on blobs
that are not well-formed serializations. -/
def DecodeBip32WIF (b : Bytes) : Option Bip32Key :=
  match b with
  | [] => none
  | n :: rest => if n ≤ rest.length then some ⟨rest.take n, rest.drop n⟩ else none

/-- The PBKDF2 seed bytes of a mnemonic (symbolic): an injective byte
encoding of the word list. -/
def mnemonicBytes (mn : List String) : Bytes :=
  mn.foldr (fun w acc => (w.toList.map Char.toNat) ++ 0 :: acc) []

/-- bip39.SeedFromMnemonic with empty passphrase (symbolic): the seed is an
injective byte encoding of the words; only the length check is modelled
(the wordlist/checksum checks live in the bip39 library). -/
def SeedFromMnemonic (mn : List String) : Except Err Bytes :=
  if mn.length = 24 then .ok (mnemonicBytes mn) else .error .mnemonicLength

/-- doge.Bip32MasterFromSeed (symbolic): the master key of a seed, with the
empty derivation path.  The rare `ErrAnotherSeed` retry case is not
modelled: generateMnemonic loops until it gets a seed that derives. -/
def Bip32MasterFromSeed (seed : Bytes) : Bip32Key := ⟨seed, []⟩

/-- A row of the `config` table (sqlite.go:15-21): salt, nonce, ciphertext,
cleartext public key. -/
structure KeyRecord where
  salt : Bytes
  nonce : Bytes
  enc : Ct
  pub : Bytes
deriving DecidableEq, Repr

/-- A row of the `delegate` table (sqlite.go:22-29).  `enc` is `none` when
the stored blob is the empty placeholder written by MakeDelegate's lazy
path. -/
structure DelegateRecord where
  salt : Bytes
  nonce : Bytes
  enc : Option Ct
  pub : Bytes
  keyIndex : Nat
deriving DecidableEq, Repr

/-- An in-memory session (keymgr.go:50-53). -/
structure Sess where
  expires : Nat
  rolled : Bool
deriving DecidableEq, Repr

/-- The combined durable + in-memory state of the key manager: the two
sqlite tables, the session map and the cached decrypted master
(keymgr.go:44-48, `key = none` models the nil slice). -/
structure KmState where
  config : List (Nat × KeyRecord)
  delegates : List (String × DelegateRecord)
  sessions : List (String × Sess)
  key : Option Bytes
deriving DecidableEq, Repr

def MainKey : Nat := 1
def SessionTime : Nat := 600
def HandoverTime : Nat := 10

/-- sqlite.go:199-215 SetKey: INSERT, or UPDATE when the row exists and
`allowReplace`; a duplicate without `allowReplace` is AlreadyExists. -/
def SetKey (cfg : List (Nat × KeyRecord)) (id : Nat) (r : KeyRecord)
    (allowReplace : Bool) : Except Err (List (Nat × KeyRecord)) :=
  match lookupA id cfg with
  | some _ =>
    if allowReplace then .ok (setA id r cfg) else .error .alreadyExists
  | none => .ok (cfg ++ [(id, r)])

/-- sqlite.go:241-249 SetDelegate: INSERT only; a duplicate id is
AlreadyExists. -/
def SetDelegate (tbl : List (String × DelegateRecord)) (id : String)
    (r : DelegateRecord) : Except Err (List (String × DelegateRecord)) :=
  match lookupA id tbl with
  | some _ => .error .alreadyExists
  | none => .ok (tbl ++ [(id, r)])

/-- sqlite.go:275-285 GetMaxDelegate: COALESCE(MAX(keyid), 0). -/
def GetMaxDelegate (tbl : List (String × DelegateRecord)) : Nat :=
  (tbl.map (fun p => p.2.keyIndex)).foldr max 0

/-- keymgr.go:329-338 cleanSessions: drop sessions with expires < now. -/
def cleanSessions (now : Nat) (st : KmState) : KmState :=
  { st with sessions := st.sessions.filter (fun p => !(decide (p.2.expires < now))) }

/-- keymgr.go:340-350 newSession: record a fresh token (the random draw is
the explicit `tok` argument) with expires = now + SessionTime +
HandoverTime, and return (token, SessionTime). -/
def newSession (tok : String) (now : Nat) (st : KmState) :
    KmState × String × Nat :=
  ({ st with sessions := setA tok ⟨now + (SessionTime + HandoverTime), false⟩ st.sessions },
   tok, SessionTime)

/-- keymgr.go:352-365 getAndDecryptKey: fetch the config row and open it;
NotFound maps to ErrNoKey. -/
def getAndDecryptKey (st : KmState) (keyId : Nat) (pass : String) :
    Except Err (Bytes × Bytes) :=
  match lookupA keyId st.config with
  | none => .error .noKey
  | some r =>
    match decryptKey r.salt r.nonce (some r.enc) pass with
    | .error e => .error e
    | .ok dec => .ok (dec, r.pub)

/-- keymgr.go:390-401 encryptAndSetKey: seal `secret` under `pass` and
store the row. -/
def encryptAndSetKey (st : KmState) (keyId : Nat) (secret pub : Bytes)
    (pass : String) (allowReplace : Bool) (salt nonce : Bytes) :
    Except Err KmState :=
  match encryptKey secret pass salt nonce with
  | (s, n, ct) =>
    match SetKey st.config keyId ⟨s, n, ct, pub⟩ allowReplace with
    | .error e => .error e
    | .ok cfg => .ok { st with config := cfg }

/-- keymgr.go:62-76 CreateKey: generate a mnemonic (the random draw is the
`mn` argument; generateMnemonic's retry loop is collapsed, an invalid draw
standing for exhausting all attempts), derive the BIP32 master, seal it
under `pass` and insert it at MainKey with allowReplace = false; an
existing row yields ErrKeyExists. -/
def CreateKey (st : KmState) (pass : String) (mn : List String)
    (salt nonce : Bytes) : KmState × Except Err (List String) :=
  match SeedFromMnemonic mn with
  | .error _ => (st, .error .tooManyAttempts)
  | .ok seed =>
    let master := Bip32MasterFromSeed seed
    match encryptAndSetKey st MainKey (EncodeWIF master) (GetECPubKey master)
        pass false salt nonce with
    | .error .alreadyExists => (st, .error .keyExists)
    | .error e => (st, .error e)
    | .ok st' => (st', .ok mn)

/-- keymgr.go:78-96 LogIn: prune, verify the password against the stored
master, mint a session and cache the decrypted master. -/
def LogIn (st : KmState) (pass : String) (tok : String) (now : Nat) :
    KmState × Except Err (String × Nat) :=
  let st1 := cleanSessions now st
  match getAndDecryptKey st1 MainKey pass with
  | .error e => (st1, .error e)
  | .ok (key, _) =>
    match newSession tok now st1 with
    | (st2, token, ends) => ({ st2 with key := some key }, .ok (token, ends))

/-- keymgr.go:98-112 RollToken: prune; if the token exists, is not rolled
and is not expired, mark it rolled with a short handover expiry and mint a
fresh token; otherwise delete it and fail with ErrBadToken. -/
def RollToken (st : KmState) (token newTok : String) (now : Nat) :
    KmState × Except Err (String × Nat) :=
  let st1 := cleanSessions now st
  match lookupA token st1.sessions with
  | some s =>
    if s.rolled = false ∧ now < s.expires then
      let st2 := { st1 with sessions := setA token ⟨now + HandoverTime, true⟩ st1.sessions }
      match newSession newTok now st2 with
      | (st3, t, ends) => (st3, .ok (t, ends))
    else
      ({ st1 with sessions := delA token st1.sessions }, .error .badToken)
  | none => ({ st1 with sessions := delA token st1.sessions }, .error .badToken)

/-- keymgr.go:114-123 LogOut: delete the token, prune, and when no session
remains zero and drop the cached master. -/
def LogOut (st : KmState) (token : String) (now : Nat) : KmState :=
  let st1 := { st with sessions := delA token st.sessions }
  let st2 := cleanSessions now st1
  if st2.sessions.length < 1 then { st2 with key := none } else st2

/-- keymgr.go:125-138 ChangePassword: decrypt under the current password,
re-seal the same key with the new password and the same stored pub, with
allowReplace = true. -/
def ChangePassword (st : KmState) (pass newpass : String)
    (salt nonce : Bytes) : KmState × Except Err Unit :=
  match getAndDecryptKey st MainKey pass with
  | .error e => (st, .error e)
  | .ok (key, pub) =>
    match encryptAndSetKey st MainKey key pub newpass true salt nonce with
    | .error e => (st, .error e)
    | .ok st' => (st', .ok ())

/-- keymgr.go:140-174 RecoverPassword: fetch the stored pub, re-derive the
master from the mnemonic, compare public keys; on mismatch fail with
ErrWrongMnemonic, else re-seal under the new password. -/
def RecoverPassword (st : KmState) (mn : List String) (newpass : String)
    (salt nonce : Bytes) : KmState × Except Err Unit :=
  match lookupA MainKey st.config with
  | none => (st, .error .noKey)
  | some r =>
    match SeedFromMnemonic mn with
    | .error e => (st, .error e)
    | .ok seed =>
      let master := Bip32MasterFromSeed seed
      if GetECPubKey master = r.pub then
        match encryptAndSetKey st MainKey (EncodeWIF master) r.pub newpass
            true salt nonce with
        | .error e => (st, .error e)
        | .ok st' => (st', .ok ())
      else (st, .error .wrongMnemonic)

/-- keymgr.go:176-230 CreateDelegate: authenticate by password, derive the
pup root m/1000'/2', then in one store transaction read the max keyIndex,
derive the child at keyIndex' = (max+1)', seal its WIF under the fresh
random delegate token `tok`, and insert the row. -/
def CreateDelegate (st : KmState) (id pass : String) (tok : String)
    (salt nonce : Bytes) : KmState × Except Err (String × Bytes) :=
  match getAndDecryptKey st MainKey pass with
  | .error e => (st, .error e)
  | .ok (key, _) =>
    match DecodeBip32WIF key with
    | none => (st, .error .badKey)
    | some master =>
      let pupKey := PrivateCKD master [HardenedKey + 1000, HardenedKey + 2]
      let keyIndex := GetMaxDelegate st.delegates + 1
      let child := PrivateCKD pupKey [HardenedKey + keyIndex]
      match encryptKey (EncodeWIF child) tok salt nonce with
      | (s, n, ct) =>
        let pub := GetECPubKey child
        match SetDelegate st.delegates id ⟨s, n, some ct, pub, keyIndex⟩ with
        | .error e => (st, .error e)
        | .ok tbl => ({ st with delegates := tbl }, .ok (tok, pub))

/-- keymgr.go:232-289 MakeDelegate: requires a live session and the cached
master; in one store transaction, reuse the stored keyIndex for `id`, or
lazily reserve keyIndex = max+1 by inserting a row with empty salt, nonce,
ciphertext and pub; then derive the child at m/1000'/2'/keyIndex'. -/
def MakeDelegate (st : KmState) (id token : String) (now : Nat) :
    KmState × Except Err (Bytes × Bytes × Bytes) :=
  let st1 := cleanSessions now st
  match lookupA token st1.sessions, st1.key with
  | some _, some key =>
    (match DecodeBip32WIF key with
     | none => (st1, .error .badKey)
     | some master =>
       let pupKey := PrivateCKD master [HardenedKey + 1000, HardenedKey + 2]
       match lookupA id st1.delegates with
       | some r =>
         let child := PrivateCKD pupKey [HardenedKey + r.keyIndex]
         (st1, .ok (GetECPrivKey child, GetECPubKey child, EncodeWIF child))
       | none =>
         let keyIndex := GetMaxDelegate st1.delegates + 1
         match SetDelegate st1.delegates id ⟨[], [], none, [], keyIndex⟩ with
         | .error e => (st1, .error e)
         | .ok tbl =>
           let child := PrivateCKD pupKey [HardenedKey + keyIndex]
           ({ st1 with delegates := tbl },
            .ok (GetECPrivKey child, GetECPubKey child, EncodeWIF child)))
  | _, _ => (st1, .error .badToken)

/-- keymgr.go:291-294 GetDelegatePub: read-only lookup of the stored pub. -/
def GetDelegatePub (st : KmState) (id : String) : Except Err Bytes :=
  match lookupA id st.delegates with
  | none => .error .notFound
  | some r => .ok r.pub

/-- keymgr.go:296-313 GetDelegatePriv: fetch the row, open the ciphertext
under the delegate token, remapping ErrWrongPassword to ErrWrongToken. -/
def GetDelegatePriv (st : KmState) (id token : String) :
    Except Err (Bytes × Bytes) :=
  match lookupA id st.delegates with
  | none => .error .notFound
  | some r =>
    match decryptKey r.salt r.nonce r.enc token with
    | .error .wrongPassword => .error .wrongToken
    | .error e => .error e
    | .ok priv => .ok (priv, r.pub)

/-- One key-manager operation together with its inputs: the explicit
randomness (mnemonics, salts, nonces, fresh tokens) and the current time. -/
inductive Op where
  | createKey (pass : String) (mn : List String) (salt nonce : Bytes)
  | logIn (pass tok : String) (now : Nat)
  | rollToken (token newTok : String) (now : Nat)
  | logOut (token : String) (now : Nat)
  | changePassword (pass newpass : String) (salt nonce : Bytes)
  | recoverPassword (mn : List String) (newpass : String) (salt nonce : Bytes)
  | createDelegate (id pass tok : String) (salt nonce : Bytes)
  | makeDelegate (id token : String) (now : Nat)
  | getDelegatePub (id : String)
  | getDelegatePriv (id token : String)
deriving Repr

/-- State transition of one operation (read-only operations leave the state
unchanged). -/
def applyOp (op : Op) (st : KmState) : KmState :=
  match op with
  | .createKey pass mn salt nonce => (CreateKey st pass mn salt nonce).1
  | .logIn pass tok now => (LogIn st pass tok now).1
  | .rollToken token newTok now => (RollToken st token newTok now).1
  | .logOut token now => LogOut st token now
  | .changePassword p np s n => (ChangePassword st p np s n).1
  | .recoverPassword mn np s n => (RecoverPassword st mn np s n).1
  | .createDelegate id p t s n => (CreateDelegate st id p t s n).1
  | .makeDelegate id t now => (MakeDelegate st id t now).1
  | .getDelegatePub _ => st
  | .getDelegatePriv _ _ => st

/-! ### Store transaction runner (sqlite.go:109-163 doTxn / Sleep) -/

/-- The outcome of one begin/work/commit attempt of sqlite.go doTxn: a
transient conflict (sqlite BUSY/LOCKED or ErrDBConflict, as classified by
IsConflict), a non-conflict error, or success. -/
inductive TxOutcome where
  | conflict
  | fail (e : Err)
  | success
deriving DecidableEq, Repr

/-- The observable trace of one doTxn call: how many attempts ran, the
total milliseconds of sleeping, and the final result. -/
structure TxRun where
  attempts : Nat
  slept : Nat
  result : Except Err Unit
deriving Repr

/-- sqlite.go:109-156 doTxn retry loop.  `outcomes i` is the result of the
i-th attempt; `cancelled` says whether the ambient context is done, in
which case sqlite.go:158-163 Sleep returns immediately (contributing 0 ms)
instead of sleeping 250 ms.  `retries` counts the remaining retries: Go's
`limit := 120; limit--; if limit != 0 continue` makes at most 120 attempts,
i.e. 119 retries after the first attempt, so doTxn starts with retries =
119.  Non-conflict outcomes return right away; a conflict sleeps and, when
retries remain, runs the next attempt. -/
def doTxnGo (outcomes : Nat → TxOutcome) (cancelled : Bool) :
    Nat → Nat → Nat → TxRun
  | retries, i, slept =>
    match outcomes i with
    | .success => ⟨i + 1, slept, .ok ()⟩
    | .fail e => ⟨i + 1, slept, .error e⟩
    | .conflict =>
      let slept' := slept + (if cancelled then 0 else 250)
      match retries with
      | 0 => ⟨i + 1, slept', .error .dbConflict⟩
      | r + 1 => doTxnGo outcomes cancelled r (i + 1) slept'

/-- sqlite.go doTxn entry point: 119 retries remain after the first
attempt (Go's limit = 120 counts attempts). -/
def doTxn (outcomes : Nat → TxOutcome) (cancelled : Bool) : TxRun :=
  doTxnGo outcomes cancelled 119 0 0

/-! ### Web API input validation (internal/web/web.go) -/

/-- Go unicode.IsSpace on the ASCII whitespace actually relevant to
passwords (strings.TrimSpace semantics restricted to ASCII). -/
def isSpaceChar (c : Char) : Bool :=
  decide (c = ' ' ∨ c = '\t' ∨ c = '\n' ∨ c = '\r' ∨ c = '\x0b' ∨ c = '\x0c')

/-- strings.TrimSpace: drop leading and trailing whitespace. -/
def trimSpace (s : String) : String :=
  ⟨((s.toList.dropWhile isSpaceChar).reverse.dropWhile isSpaceChar).reverse⟩

/-- web.go:635-656 `/create` validation prefix: trim the password and
reject the empty result with error code "password" before calling
keymgr.CreateKey; on success the trimmed password is what is passed on. -/
def createCheck (password : String) : Except String String :=
  let pass := trimSpace password
  if pass.length < 1 then .error "password" else .ok pass

/-- web.go:683-709 `/login` validation prefix. -/
def loginCheck (password : String) : Except String String :=
  let pass := trimSpace password
  if pass.length < 1 then .error "password" else .ok pass

/-- web.go:808-841 `/change-password` validation prefix: both fields are
trimmed and checked. -/
def changePasswordCheck (password newPassword : String) :
    Except String (String × String) :=
  let pass := trimSpace password
  if pass.length < 1 then .error "password"
  else
    let newpass := trimSpace newPassword
    if newpass.length < 1 then .error "newpassword" else .ok (pass, newpass)

/-- web.go:867-899 `/recover-password` validation prefix: the new password
is trimmed and checked, then the seedphrase must be non-empty. -/
def recoverPasswordCheck (seedphrase : List String) (newPassword : String) :
    Except String (List String × String) :=
  let newpass := trimSpace newPassword
  if newpass.length < 1 then .error "newpassword"
  else if seedphrase.length < 1 then .error "seedphrase"
  else .ok (seedphrase, newpass)

/-- web.go:930-954 `/create-delegate` validation prefix: id and password
are compared against the empty string WITHOUT trimming, and the password is
handed to keymgr.CreateDelegate untrimmed. -/
def createDelegateCheck (id pass : String) : Except String (String × String) :=
  if id = "" then .error "bad-request"
  else if pass = "" then .error "bad-request"
  else .ok (id, pass)

/-! ### Association-list lemmas -/

section AList

variable {α β : Type} [DecidableEq α]

theorem lookupA_setA_self (k : α) (v : β) (l : List (α × β)) :
    lookupA k (setA k v l) = some v := by
  induction l with
  | nil => simp [setA, lookupA]
  | cons hd tl ih =>
    obtain ⟨k0, v0⟩ := hd
    by_cases h : k0 = k <;> simp [setA, lookupA, h, ih]

theorem lookupA_setA_ne (k k' : α) (v : β) (l : List (α × β)) (h : k' ≠ k) :
    lookupA k' (setA k v l) = lookupA k' l := by
  induction l with
  | nil => simp [setA, lookupA, Ne.symm h]
  | cons hd tl ih =>
    obtain ⟨k0, v0⟩ := hd
    by_cases h0 : k0 = k
    · subst h0
      simp [setA, lookupA, Ne.symm h]
    · simp [setA, lookupA, h0, ih]

theorem lookupA_delA_self (k : α) (l : List (α × β)) :
    lookupA k (delA k l) = none := by
  induction l with
  | nil => simp [delA, lookupA]
  | cons hd tl ih =>
    obtain ⟨k0, v0⟩ := hd
    by_cases h : k0 = k
    · simpa [delA, List.filter_cons, h] using ih
    · simpa [delA, List.filter_cons, h, lookupA] using ih

theorem lookupA_delA_ne (k k' : α) (l : List (α × β)) (h : k' ≠ k) :
    lookupA k' (delA k l) = lookupA k' l := by
  induction l with
  | nil => simp [delA, lookupA]
  | cons hd tl ih =>
    obtain ⟨k0, v0⟩ := hd
    by_cases h0 : k0 = k
    · subst h0
      simp only [delA, List.filter_cons] at ih ⊢
      simpa [lookupA, Ne.symm h] using ih
    · simp only [delA, List.filter_cons] at ih ⊢
      simp [lookupA, h0, ih]

theorem lookupA_append_of_some (k : α) (l1 l2 : List (α × β)) (v : β)
    (h : lookupA k l1 = some v) : lookupA k (l1 ++ l2) = some v := by
  induction l1 with
  | nil => simp [lookupA] at h
  | cons hd tl ih =>
    obtain ⟨k0, v0⟩ := hd
    by_cases h0 : k0 = k
    · simp only [lookupA, if_pos h0] at h
      simp [lookupA, h0, h]
    · simp only [lookupA, if_neg h0] at h
      simp [lookupA, h0, ih h]

theorem lookupA_append_of_none (k : α) (l1 l2 : List (α × β))
    (h : lookupA k l1 = none) : lookupA k (l1 ++ l2) = lookupA k l2 := by
  induction l1 with
  | nil => simp [lookupA]
  | cons hd tl ih =>
    obtain ⟨k0, v0⟩ := hd
    by_cases h0 : k0 = k
    · simp [lookupA, h0] at h
    · simp only [lookupA, if_neg h0] at h
      simp [lookupA, h0, ih h]

theorem lookupA_mem (k : α) (l : List (α × β)) (v : β)
    (h : lookupA k l = some v) : (k, v) ∈ l := by
  induction l with
  | nil => simp [lookupA] at h
  | cons hd tl ih =>
    obtain ⟨k0, v0⟩ := hd
    by_cases h0 : k0 = k
    · subst h0
      simp [lookupA] at h
      subst h
      exact List.mem_cons_self _ _
    · simp only [lookupA, if_neg h0] at h
      exact List.mem_cons_of_mem _ (ih h)

theorem lookupA_eq_none_iff (k : α) (l : List (α × β)) :
    lookupA k l = none ↔ k ∉ l.map Prod.fst := by
  induction l with
  | nil => simp [lookupA]
  | cons hd tl ih =>
    obtain ⟨k0, v0⟩ := hd
    by_cases h0 : k0 = k
    · subst h0
      simp [lookupA]
    · simp [lookupA, h0, ih, Ne.symm h0]

theorem lookupA_filter_of_keep (p : α × β → Bool) (l : List (α × β)) (k : α)
    (v : β) (h : lookupA k l = some v) (hp : p (k, v) = true) :
    lookupA k (l.filter p) = some v := by
  induction l with
  | nil => simp [lookupA] at h
  | cons hd tl ih =>
    obtain ⟨k0, v0⟩ := hd
    by_cases h0 : k0 = k
    · subst h0
      simp [lookupA] at h
      subst h
      simp [List.filter_cons, hp, lookupA]
    · simp only [lookupA, if_neg h0] at h
      by_cases hpd : p (k0, v0) <;>
        simp [List.filter_cons, hpd, lookupA, h0, ih h]

theorem lookupA_filter_none (p : α × β → Bool) (l : List (α × β)) (k : α)
    (h : lookupA k l = none) : lookupA k (l.filter p) = none := by
  rw [lookupA_eq_none_iff] at h ⊢
  intro hmem
  apply h
  simp only [List.mem_map] at hmem ⊢
  obtain ⟨pr, hpr, he⟩ := hmem
  exact ⟨pr, List.mem_of_mem_filter hpr, he⟩

theorem lookupA_filter_nodup (p : α × β → Bool) (l : List (α × β))
    (hn : (l.map Prod.fst).Nodup) (k : α) :
    lookupA k (l.filter p) =
      (lookupA k l).bind (fun v => if p (k, v) then some v else none) := by
  induction l with
  | nil => simp [lookupA]
  | cons hd tl ih =>
    obtain ⟨k0, v0⟩ := hd
    simp only [List.map_cons, List.nodup_cons] at hn
    obtain ⟨hk0, htl⟩ := hn
    by_cases h0 : k0 = k
    · subst h0
      have hnone : lookupA k0 tl = none := by
        rw [lookupA_eq_none_iff]; exact hk0
      by_cases hpd : p (k0, v0) <;>
        simp [List.filter_cons, hpd, lookupA, lookupA_filter_none p tl k0 hnone]
    · by_cases hpd : p (k0, v0) <;>
        simp [List.filter_cons, hpd, lookupA, h0, ih htl]

end AList

/-! ### Arithmetic and encoding lemmas -/

theorem le_foldr_max (a : Nat) (l : List Nat) (h : a ∈ l) :
    a ≤ l.foldr max 0 := by
  induction l with
  | nil => simp at h
  | cons b t ih =>
    simp only [List.mem_cons] at h
    rcases h with h | h
    · subst h; exact Nat.le_max_left _ _
    · exact Nat.le_trans (ih h) (Nat.le_max_right _ _)

theorem keyIndex_le_max (tbl : List (String × DelegateRecord)) (id : String)
    (r : DelegateRecord) (h : lookupA id tbl = some r) :
    r.keyIndex ≤ GetMaxDelegate tbl := by
  apply le_foldr_max
  simp only [List.mem_map]
  exact ⟨(id, r), lookupA_mem id tbl r h, rfl⟩

theorem decode_encode_wif (k : Bip32Key) :
    DecodeBip32WIF (EncodeWIF k) = some k := by
  simp [EncodeWIF, DecodeBip32WIF, List.take_left, List.drop_left]

/-! ### Frame lemmas: which state components each operation can touch -/

/-- Explicit characterization of encryptAndSetKey (keymgr.go:390-401):
insert or, when allowed, replace the config row for `keyId` with the newly
sealed envelope; only the config table changes. -/
theorem encryptAndSetKey_spec (st : KmState) (keyId : Nat) (secret pub : Bytes)
    (pass : String) (ar : Bool) (salt nonce : Bytes) :
    encryptAndSetKey st keyId secret pub pass ar salt nonce =
      match lookupA keyId st.config with
      | some _ =>
        if ar then
          .ok { st with
            config := setA keyId ⟨salt, nonce, ⟨pass, salt, nonce, secret⟩, pub⟩ st.config }
        else .error .alreadyExists
      | none =>
        .ok { st with
          config := st.config ++ [(keyId, ⟨salt, nonce, ⟨pass, salt, nonce, secret⟩, pub⟩)] } := by
  unfold encryptAndSetKey encryptKey SetKey
  cases h : lookupA keyId st.config with
  | none => rfl
  | some r => cases ar <;> rfl

theorem createKey_frame (st : KmState) (pass : String) (mn : List String)
    (salt nonce : Bytes) :
    (CreateKey st pass mn salt nonce).1.delegates = st.delegates ∧
    (CreateKey st pass mn salt nonce).1.sessions = st.sessions ∧
    (CreateKey st pass mn salt nonce).1.key = st.key := by
  unfold CreateKey
  cases h1 : SeedFromMnemonic mn with
  | error e => exact ⟨rfl, rfl, rfl⟩
  | ok seed =>
    dsimp only
    rw [encryptAndSetKey_spec]
    cases h2 : lookupA MainKey st.config with
    | none => exact ⟨rfl, rfl, rfl⟩
    | some r => exact ⟨rfl, rfl, rfl⟩

theorem changePassword_frame (st : KmState) (pass newpass : String)
    (salt nonce : Bytes) :
    (ChangePassword st pass newpass salt nonce).1.delegates = st.delegates ∧
    (ChangePassword st pass newpass salt nonce).1.sessions = st.sessions ∧
    (ChangePassword st pass newpass salt nonce).1.key = st.key := by
  unfold ChangePassword
  cases h1 : getAndDecryptKey st MainKey pass with
  | error e => exact ⟨rfl, rfl, rfl⟩
  | ok kp =>
    obtain ⟨key, pub⟩ := kp
    dsimp only
    rw [encryptAndSetKey_spec]
    cases h2 : lookupA MainKey st.config with
    | none => exact ⟨rfl, rfl, rfl⟩
    | some r => exact ⟨rfl, rfl, rfl⟩

theorem recoverPassword_frame (st : KmState) (mn : List String)
    (newpass : String) (salt nonce : Bytes) :
    (RecoverPassword st mn newpass salt nonce).1.delegates = st.delegates ∧
    (RecoverPassword st mn newpass salt nonce).1.sessions = st.sessions ∧
    (RecoverPassword st mn newpass salt nonce).1.key = st.key := by
  unfold RecoverPassword
  cases h1 : lookupA MainKey st.config with
  | none => exact ⟨rfl, rfl, rfl⟩
  | some r =>
    dsimp only
    cases h2 : SeedFromMnemonic mn with
    | error e => exact ⟨rfl, rfl, rfl⟩
    | ok seed =>
      dsimp only
      by_cases h3 : GetECPubKey (Bip32MasterFromSeed seed) = r.pub
      · rw [if_pos h3, encryptAndSetKey_spec]
        cases h4 : lookupA MainKey st.config with
        | none => exact ⟨rfl, rfl, rfl⟩
        | some r0 => exact ⟨rfl, rfl, rfl⟩
      · rw [if_neg h3]
        exact ⟨rfl, rfl, rfl⟩

theorem logIn_frame (st : KmState) (pass tok : String) (now : Nat) :
    (LogIn st pass tok now).1.config = st.config ∧
    (LogIn st pass tok now).1.delegates = st.delegates := by
  unfold LogIn newSession
  dsimp only
  cases h1 : getAndDecryptKey (cleanSessions now st) MainKey pass with
  | error e => exact ⟨rfl, rfl⟩
  | ok kp => obtain ⟨key, pub⟩ := kp; exact ⟨rfl, rfl⟩

theorem rollToken_frame (st : KmState) (token newTok : String) (now : Nat) :
    (RollToken st token newTok now).1.config = st.config ∧
    (RollToken st token newTok now).1.delegates = st.delegates ∧
    (RollToken st token newTok now).1.key = st.key := by
  unfold RollToken newSession
  dsimp only
  cases h1 : lookupA token (cleanSessions now st).sessions with
  | none => exact ⟨rfl, rfl, rfl⟩
  | some s =>
    dsimp only
    by_cases h2 : s.rolled = false ∧ now < s.expires
    · rw [if_pos h2]
      exact ⟨rfl, rfl, rfl⟩
    · rw [if_neg h2]
      exact ⟨rfl, rfl, rfl⟩

theorem logOut_frame (st : KmState) (token : String) (now : Nat) :
    (LogOut st token now).config = st.config ∧
    (LogOut st token now).delegates = st.delegates := by
  unfold LogOut
  dsimp only
  by_cases h : (cleanSessions now { st with sessions := delA token st.sessions }).sessions.length < 1
  · rw [if_pos h]
    exact ⟨rfl, rfl⟩
  · rw [if_neg h]
    exact ⟨rfl, rfl⟩

theorem createDelegate_frame (st : KmState) (id pass tok : String)
    (salt nonce : Bytes) :
    (CreateDelegate st id pass tok salt nonce).1.config = st.config ∧
    (CreateDelegate st id pass tok salt nonce).1.sessions = st.sessions ∧
    (CreateDelegate st id pass tok salt nonce).1.key = st.key := by
  unfold CreateDelegate SetDelegate encryptKey
  cases h1 : getAndDecryptKey st MainKey pass with
  | error e => exact ⟨rfl, rfl, rfl⟩
  | ok kp =>
    obtain ⟨key, pub0⟩ := kp
    dsimp only
    cases h2 : DecodeBip32WIF key with
    | none => exact ⟨rfl, rfl, rfl⟩
    | some master =>
      dsimp only
      cases h3 : lookupA id st.delegates with
      | some r => exact ⟨rfl, rfl, rfl⟩
      | none => exact ⟨rfl, rfl, rfl⟩

theorem makeDelegate_frame (st : KmState) (id token : String) (now : Nat) :
    (MakeDelegate st id token now).1.config = st.config ∧
    (MakeDelegate st id token now).1.key = st.key := by
  unfold MakeDelegate SetDelegate
  dsimp only
  cases h1 : lookupA token (cleanSessions now st).sessions with
  | none => exact ⟨rfl, rfl⟩
  | some s =>
    cases h2 : (cleanSessions now st).key with
    | none => exact ⟨rfl, rfl⟩
    | some key =>
      dsimp only
      cases h3 : DecodeBip32WIF key with
      | none => exact ⟨rfl, rfl⟩
      | some master =>
        dsimp only
        cases h4 : lookupA id (cleanSessions now st).delegates with
        | some r => exact ⟨rfl, rfl⟩
        | none => exact ⟨rfl, h2.symm⟩

/-- The delegate table after CreateDelegate: unchanged, or (when the id was
free) extended with exactly one fresh record carrying keyIndex = max + 1. -/
theorem createDelegate_tbl (st : KmState) (id pass tok : String)
    (salt nonce : Bytes) :
    (CreateDelegate st id pass tok salt nonce).1.delegates = st.delegates ∨
    (lookupA id st.delegates = none ∧ ∃ rec : DelegateRecord,
      rec.keyIndex = GetMaxDelegate st.delegates + 1 ∧
      (CreateDelegate st id pass tok salt nonce).1.delegates =
        st.delegates ++ [(id, rec)]) := by
  unfold CreateDelegate SetDelegate encryptKey
  cases h1 : getAndDecryptKey st MainKey pass with
  | error e => exact Or.inl rfl
  | ok kp =>
    obtain ⟨key, pub0⟩ := kp
    dsimp only
    cases h2 : DecodeBip32WIF key with
    | none => exact Or.inl rfl
    | some master =>
      dsimp only
      cases h3 : lookupA id st.delegates with
      | some r => exact Or.inl rfl
      | none =>
        refine Or.inr ⟨?_, ⟨salt, nonce,
          some ⟨tok, salt, nonce,
            EncodeWIF (PrivateCKD (PrivateCKD master [HardenedKey + 1000, HardenedKey + 2])
              [HardenedKey + (GetMaxDelegate st.delegates + 1)])⟩,
          GetECPubKey (PrivateCKD (PrivateCKD master [HardenedKey + 1000, HardenedKey + 2])
              [HardenedKey + (GetMaxDelegate st.delegates + 1)]),
          GetMaxDelegate st.delegates + 1⟩, rfl, rfl⟩
        rfl

/-- The delegate table after MakeDelegate: unchanged, or (lazy creation)
extended with exactly one placeholder record carrying keyIndex = max + 1. -/
theorem makeDelegate_tbl (st : KmState) (id token : String) (now : Nat) :
    (MakeDelegate st id token now).1.delegates = st.delegates ∨
    (lookupA id st.delegates = none ∧ ∃ rec : DelegateRecord,
      rec.keyIndex = GetMaxDelegate st.delegates + 1 ∧
      (MakeDelegate st id token now).1.delegates =
        st.delegates ++ [(id, rec)]) := by
  unfold MakeDelegate SetDelegate
  dsimp only
  cases h1 : lookupA token (cleanSessions now st).sessions with
  | none => cases h2 : (cleanSessions now st).key <;> exact Or.inl rfl
  | some s =>
    cases h2 : (cleanSessions now st).key with
    | none => exact Or.inl rfl
    | some key =>
      dsimp only
      cases h3 : DecodeBip32WIF key with
      | none => exact Or.inl rfl
      | some master =>
        dsimp only
        cases h4 : lookupA id (cleanSessions now st).delegates with
        | some r => exact Or.inl rfl
        | none =>
          refine Or.inr ⟨?_, ⟨[], [], none, [],
            GetMaxDelegate st.delegates + 1⟩, rfl, rfl⟩
          exact h4

/-! ### doTxn retry-loop lemmas -/

theorem doTxnGo_attempts_gt (o : Nat → TxOutcome) (c : Bool)
    (fuel : Nat) : ∀ i s : Nat, i < (doTxnGo o c fuel i s).attempts := by
  induction fuel with
  | zero =>
    intro i s
    unfold doTxnGo
    cases o i <;> simp
  | succ f ih =>
    intro i s
    unfold doTxnGo
    cases o i <;> simp
    exact Nat.lt_of_succ_lt (ih (i + 1) _)

theorem doTxnGo_attempts_le (o : Nat → TxOutcome) (c : Bool)
    (fuel : Nat) : ∀ i s : Nat, (doTxnGo o c fuel i s).attempts ≤ i + fuel + 1 := by
  induction fuel with
  | zero =>
    intro i s
    unfold doTxnGo
    cases o i <;> simp
  | succ f ih =>
    intro i s
    unfold doTxnGo
    cases o i with
    | success => dsimp only; omega
    | fail e => dsimp only; omega
    | conflict =>
      show (doTxnGo o c f (i + 1) (s + if c then 0 else 250)).attempts ≤
        i + (f + 1) + 1
      have := ih (i + 1) (s + if c then 0 else 250)
      omega

theorem doTxnGo_conflict_before (o : Nat → TxOutcome) (c : Bool)
    (fuel : Nat) : ∀ i s j : Nat, i ≤ j →
    j + 1 < (doTxnGo o c fuel i s).attempts → o j = .conflict := by
  induction fuel with
  | zero =>
    intro i s j hij hlt
    unfold doTxnGo at hlt
    cases h : o i with
    | success => rw [h] at hlt; dsimp only at hlt; exact absurd hlt (by omega)
    | fail e => rw [h] at hlt; dsimp only at hlt; exact absurd hlt (by omega)
    | conflict => rw [h] at hlt; dsimp only at hlt; exact absurd hlt (by omega)
  | succ f ih =>
    intro i s j hij hlt
    unfold doTxnGo at hlt
    cases h : o i with
    | success => rw [h] at hlt; dsimp only at hlt; exact absurd hlt (by omega)
    | fail e => rw [h] at hlt; dsimp only at hlt; exact absurd hlt (by omega)
    | conflict =>
      rw [h] at hlt
      dsimp only at hlt
      rcases Nat.eq_or_lt_of_le hij with he | hgt
      · exact he ▸ h
      · exact ih (i + 1) _ j hgt hlt

theorem doTxnGo_slept_cancelled (o : Nat → TxOutcome)
    (fuel : Nat) : ∀ i s : Nat, (doTxnGo o true fuel i s).slept = s := by
  induction fuel with
  | zero =>
    intro i s
    unfold doTxnGo
    cases o i <;> simp
  | succ f ih =>
    intro i s
    unfold doTxnGo
    cases o i <;> simp
    exact ih (i + 1) s

theorem doTxnGo_slept_bounds (o : Nat → TxOutcome)
    (fuel : Nat) : ∀ i s : Nat,
      s + ((doTxnGo o false fuel i s).attempts - 1 - i) * 250 ≤
        (doTxnGo o false fuel i s).slept ∧
      (doTxnGo o false fuel i s).slept ≤
        s + ((doTxnGo o false fuel i s).attempts - i) * 250 := by
  induction fuel with
  | zero =>
    intro i s
    unfold doTxnGo
    cases o i with
    | success =>
      show s + (i + 1 - 1 - i) * 250 ≤ s ∧ s ≤ s + (i + 1 - i) * 250
      omega
    | fail e =>
      show s + (i + 1 - 1 - i) * 250 ≤ s ∧ s ≤ s + (i + 1 - i) * 250
      omega
    | conflict =>
      show s + (i + 1 - 1 - i) * 250 ≤ s + 250 ∧
        s + 250 ≤ s + (i + 1 - i) * 250
      omega
  | succ f ih =>
    intro i s
    unfold doTxnGo
    cases o i with
    | success =>
      show s + (i + 1 - 1 - i) * 250 ≤ s ∧ s ≤ s + (i + 1 - i) * 250
      omega
    | fail e =>
      show s + (i + 1 - 1 - i) * 250 ≤ s ∧ s ≤ s + (i + 1 - i) * 250
      omega
    | conflict =>
      show s + ((doTxnGo o false f (i + 1) (s + 250)).attempts - 1 - i) * 250 ≤
          (doTxnGo o false f (i + 1) (s + 250)).slept ∧
        (doTxnGo o false f (i + 1) (s + 250)).slept ≤
          s + ((doTxnGo o false f (i + 1) (s + 250)).attempts - i) * 250
      have hgt := doTxnGo_attempts_gt o false f (i + 1) (s + 250)
      have := ih (i + 1) (s + 250)
      omega

/-! ### Claim theorems -/

/-- Claim C1 (confirmed).  Envelope round-trip: `decryptKey` applied to the
(salt, nonce, ct) triple produced by `encryptKey` with the same password
returns the sealed secret; with any different password it fails with
exactly `Err.wrongPassword`; and `decryptKey` has a single failure kind
(any AEAD failure, tag or truncation alike, surfaces as wrongPassword). -/
theorem C1_envelope_roundtrip (x : Bytes) (p : String) (salt nonce : Bytes) :
    (encryptKey x p salt nonce).1 = salt ∧
    (encryptKey x p salt nonce).2.1 = nonce ∧
    decryptKey salt nonce (some (encryptKey x p salt nonce).2.2) p = .ok x ∧
    (∀ p' : String, p' ≠ p →
      decryptKey salt nonce (some (encryptKey x p salt nonce).2.2) p' =
        .error Err.wrongPassword) ∧
    (∀ (s n : Bytes) (e : Option Ct) (q : String) (r : Err),
      decryptKey s n e q = .error r → r = Err.wrongPassword) := by
  refine ⟨rfl, rfl, ?_, ?_, ?_⟩
  · simp [encryptKey, decryptKey]
  · intro p' hne
    simp [encryptKey, decryptKey, Ne.symm hne]
  · intro s n e q r h
    unfold decryptKey at h
    cases e with
    | none =>
      dsimp only at h
      injection h with h2
      exact h2.symm
    | some ct =>
      dsimp only at h
      by_cases hc : ct.pass = q ∧ ct.salt = s ∧ ct.nonce = n
      · rw [if_pos hc] at h
        simp at h
      · rw [if_neg hc] at h
        injection h with h2
        exact h2.symm

/-- Witness for C1 at a concrete secret, password and random draw. -/
theorem C1_envelope_roundtrip_witness :
    decryptKey [1] [2] (some (encryptKey [7, 7] "pw" [1] [2]).2.2) "pw" =
      .ok [7, 7] ∧
    decryptKey [1] [2] (some (encryptKey [7, 7] "pw" [1] [2]).2.2) "x" =
      .error Err.wrongPassword := by
  have h := C1_envelope_roundtrip [7, 7] "pw" [1] [2]
  exact ⟨h.2.2.1, h.2.2.2.1 "x" (by decide)⟩

/-- Claim C8 counterexample: with the ambient context cancelled and every
attempt conflicting, doTxn still performs all 120 attempts — the retry loop
does NOT abort on cancellation, contradicting the claim that it stops
retrying promptly. -/
theorem C8_counterexample :
    (doTxn (fun _ => TxOutcome.conflict) true).attempts = 120 ∧
    ¬ (doTxn (fun _ => TxOutcome.conflict) true).attempts ≤ 1 := by
  constructor
  · rfl
  · decide

/-- Claim C8 (corrected).  The transaction runner retries only on transient
conflict (every non-final attempt ended in a conflict), is bounded by 120
attempts, and sleeps a fixed 250 ms after each conflicting attempt, so the
total sleep lies between (attempts-1)*250 ms and attempts*250 ms, at most
30 s.  Cancellation, however, does not abort the retry loop: it only
makes every sleep return immediately (total sleep 0), as witnessed by the
counterexample where a cancelled run still makes 120 attempts. -/
theorem C8_doTxn_retry (o : Nat → TxOutcome) (c : Bool) :
    (doTxn o c).attempts ≤ 120 ∧
    (∀ j : Nat, j + 1 < (doTxn o c).attempts → o j = .conflict) ∧
    (c = false →
      ((doTxn o c).attempts - 1) * 250 ≤ (doTxn o c).slept ∧
      (doTxn o c).slept ≤ (doTxn o c).attempts * 250 ∧
      (doTxn o c).slept ≤ 30000) ∧
    (c = true → (doTxn o c).slept = 0) := by
  refine ⟨?_, ?_, ?_, ?_⟩
  · have := doTxnGo_attempts_le o c 119 0 0
    unfold doTxn
    omega
  · intro j hj
    exact doTxnGo_conflict_before o c 119 0 0 j (Nat.zero_le j) hj
  · intro hc
    subst hc
    have h1 := doTxnGo_slept_bounds o 119 0 0
    have h2 := doTxnGo_attempts_le o false 119 0 0
    unfold doTxn at h1 h2 ⊢
    omega
  · intro hc
    subst hc
    exact doTxnGo_slept_cancelled o 119 0 0

/-- Witness for C8 at a concrete outcome trace (two conflicts then
success) with a live context. -/
theorem C8_doTxn_retry_witness :
    (doTxn (fun i => if i = 2 then TxOutcome.success else TxOutcome.conflict)
      false).attempts ≤ 120 ∧
    (fun i => if i = 2 then TxOutcome.success else TxOutcome.conflict) 0 =
      TxOutcome.conflict ∧
    (doTxn (fun i => if i = 2 then TxOutcome.success else TxOutcome.conflict)
      false).slept ≤ 30000 := by
  have h := C8_doTxn_retry
    (fun i => if i = 2 then TxOutcome.success else TxOutcome.conflict) false
  exact ⟨h.1, h.2.1 0 (by decide), (h.2.2.1 rfl).2.2⟩

/-- A string has length 0 exactly when it is empty (used to relate the
`len(pass) < 1` checks in web.go to emptiness after trimming). -/
theorem string_length_eq_zero (s : String) : s.length = 0 ↔ s = "" := by
  cases s with
  | mk data =>
    simp [String.length]
    constructor
    · intro h
      cases data with
      | nil => rfl
      | cons a t => simp at h
    · intro h
      have h2 : data = ([] : List Char) := congrArg String.data h
      simp [h2]

/-- Claim C9 counterexample: /create-delegate does NOT trim its password.
The all-whitespace password " " is empty after trimming, yet the handler
accepts it and passes it to the key manager untrimmed, contradicting the
claim that every password-accepting endpoint trims and rejects an
empty-after-trim password before any crypto work. -/
theorem C9_counterexample :
    createDelegateCheck "pup" " " = .ok ("pup", " ") ∧ trimSpace " " = "" := by
  exact ⟨rfl, rfl⟩

/-- Claim C9 (corrected).  /create, /login, /change-password and
/recover-password trim their password / new_password and reject an input
that is empty after trimming (with the matching error code) before invoking
the key manager; on success exactly the trimmed value is passed on.
/create-delegate, by contrast, rejects only the untrimmed empty password
and hands the password on untrimmed. -/
theorem C9_password_validation :
    (∀ p : String, trimSpace p = "" → createCheck p = .error "password") ∧
    (∀ p v : String, createCheck p = .ok v → v = trimSpace p) ∧
    (∀ p : String, trimSpace p = "" → loginCheck p = .error "password") ∧
    (∀ p v : String, loginCheck p = .ok v → v = trimSpace p) ∧
    (∀ p np : String, trimSpace p = "" →
      changePasswordCheck p np = .error "password") ∧
    (∀ p np : String, trimSpace p ≠ "" → trimSpace np = "" →
      changePasswordCheck p np = .error "newpassword") ∧
    (∀ (p np : String) (v : String × String), changePasswordCheck p np = .ok v →
      v = (trimSpace p, trimSpace np)) ∧
    (∀ (sp : List String) (np : String), trimSpace np = "" →
      recoverPasswordCheck sp np = .error "newpassword") ∧
    (∀ (sp : List String) (np : String) (v : List String × String),
      recoverPasswordCheck sp np = .ok v → v = (sp, trimSpace np)) ∧
    (∀ id p : String, id ≠ "" → p ≠ "" →
      createDelegateCheck id p = .ok (id, p)) := by
  refine ⟨?_, ?_, ?_, ?_, ?_, ?_, ?_, ?_, ?_, ?_⟩
  · intro p h
    unfold createCheck
    rw [if_pos (show (trimSpace p).length < 1 by rw [h]; decide)]
  · intro p v h
    unfold createCheck at h
    by_cases hc : (trimSpace p).length < 1
    · rw [if_pos hc] at h
      exact absurd h (by simp)
    · rw [if_neg hc] at h
      injection h with h2
      exact h2.symm
  · intro p h
    unfold loginCheck
    rw [if_pos (show (trimSpace p).length < 1 by rw [h]; decide)]
  · intro p v h
    unfold loginCheck at h
    by_cases hc : (trimSpace p).length < 1
    · rw [if_pos hc] at h
      exact absurd h (by simp)
    · rw [if_neg hc] at h
      injection h with h2
      exact h2.symm
  · intro p np h
    unfold changePasswordCheck
    rw [if_pos (show (trimSpace p).length < 1 by rw [h]; decide)]
  · intro p np hp hnp
    unfold changePasswordCheck
    have hc : ¬ (trimSpace p).length < 1 := by
      have h3 := (string_length_eq_zero (trimSpace p)).not.mpr hp
      omega
    rw [if_neg hc,
      if_pos (show (trimSpace np).length < 1 by rw [hnp]; decide)]
  · intro p np v h
    unfold changePasswordCheck at h
    by_cases hc : (trimSpace p).length < 1
    · rw [if_pos hc] at h
      exact absurd h (by simp)
    · rw [if_neg hc] at h
      by_cases hc2 : (trimSpace np).length < 1
      · rw [if_pos hc2] at h
        exact absurd h (by simp)
      · rw [if_neg hc2] at h
        injection h with h2
        exact h2.symm
  · intro sp np h
    unfold recoverPasswordCheck
    rw [if_pos (show (trimSpace np).length < 1 by rw [h]; decide)]
  · intro sp np v h
    unfold recoverPasswordCheck at h
    by_cases hc : (trimSpace np).length < 1
    · rw [if_pos hc] at h
      exact absurd h (by simp)
    · rw [if_neg hc] at h
      by_cases hc2 : sp.length < 1
      · rw [if_pos hc2] at h
        exact absurd h (by simp)
      · rw [if_neg hc2] at h
        injection h with h2
        exact h2.symm
  · intro id p hid hp
    unfold createDelegateCheck
    rw [if_neg hid, if_neg hp]

/-- Witness for C9 at concrete inputs: an all-whitespace password is
rejected by /login and /change-password, and /create-delegate accepts an
untrimmed password as-is. -/
theorem C9_password_validation_witness :
    loginCheck "  " = .error "password" ∧
    changePasswordCheck "pw" " " = .error "newpassword" ∧
    createDelegateCheck "pup" "raw pass " = .ok ("pup", "raw pass ") := by
  have h := C9_password_validation
  exact ⟨h.2.2.1 "  " (by rfl),
    h.2.2.2.2.2.1 "pw" " " (by decide) (by rfl),
    h.2.2.2.2.2.2.2.2.2 "pup" "raw pass " (by decide) (by decide)⟩

/-! ### Sample states for witnesses and counterexamples -/

/-- A valid 24-word mnemonic draw. -/
def sampleMn : List String := List.replicate 24 "a"

/-- A different valid 24-word mnemonic draw. -/
def otherMn : List String := List.replicate 24 "b"

/-- The master key derived from `sampleMn`. -/
def sampleMaster : Bip32Key := Bip32MasterFromSeed (mnemonicBytes sampleMn)

/-- The master record as CreateKey would store it for `sampleMn` under
password "pw" with salt [1] and nonce [2]. -/
def sampleKeyRecord : KeyRecord :=
  ⟨[1], [2], ⟨"pw", [1], [2], EncodeWIF sampleMaster⟩, GetECPubKey sampleMaster⟩

/-- A state with the master created, one live session "tok" (expires at
100) and the decrypted master cached. -/
def sampleState : KmState :=
  { config := [(MainKey, sampleKeyRecord)],
    delegates := [],
    sessions := [("tok", ⟨100, false⟩)],
    key := some (EncodeWIF sampleMaster) }

/-- A delegate record as CreateDelegate would store it at keyIndex 1. -/
def sampleDelegate : DelegateRecord :=
  ⟨[11], [12],
    some ⟨"dtokA", [11], [12],
      EncodeWIF (PrivateCKD sampleMaster
        [HardenedKey + 1000, HardenedKey + 2, HardenedKey + 1])⟩,
    GetECPubKey (PrivateCKD sampleMaster
      [HardenedKey + 1000, HardenedKey + 2, HardenedKey + 1]), 1⟩

/-- `sampleState` extended with one existing delegate "pupA". -/
def sampleState2 : KmState :=
  { sampleState with delegates := [("pupA", sampleDelegate)] }

/-- Inversion of getAndDecryptKey (keymgr.go:352-365) on success: the config
row exists, the returned pub is the stored pub, and the ciphertext opens
under the password to the returned key. -/
theorem getAndDecryptKey_ok (st : KmState) (keyId : Nat) (pass : String)
    (key pub : Bytes) (h : getAndDecryptKey st keyId pass = .ok (key, pub)) :
    ∃ r : KeyRecord, lookupA keyId st.config = some r ∧ pub = r.pub ∧
      decryptKey r.salt r.nonce (some r.enc) pass = .ok key := by
  unfold getAndDecryptKey at h
  cases hM : lookupA keyId st.config with
  | none =>
    rw [hM] at h
    exact absurd h (by simp)
  | some r =>
    rw [hM] at h
    dsimp only at h
    cases hd : decryptKey r.salt r.nonce (some r.enc) pass with
    | error e =>
      rw [hd] at h
      exact absurd h (by simp)
    | ok dec =>
      rw [hd] at h
      simp only [Except.ok.injEq, Prod.mk.injEq] at h
      exact ⟨r, rfl, h.2.symm, by rw [hd, h.1]⟩

/-- Claim C5 (confirmed).  At most one MasterRecord: CreateKey, called when
a config row is already stored at the reserved id MainKey = 1, fails with
keyExists and returns the state unchanged, so the existing record is
untouched. -/
theorem C5_create_key_exists (st : KmState) (pass : String) (mn : List String)
    (salt nonce : Bytes) (r : KeyRecord)
    (hM : lookupA MainKey st.config = some r) (hmn : mn.length = 24) :
    CreateKey st pass mn salt nonce = (st, .error Err.keyExists) := by
  unfold CreateKey SeedFromMnemonic
  rw [if_pos hmn]
  dsimp only
  rw [encryptAndSetKey_spec, hM]
  rfl

/-- Witness for C5: creating a second master on `sampleState` fails with
keyExists and leaves the state exactly as it was. -/
theorem C5_create_key_exists_witness :
    CreateKey sampleState "other" otherMn [7] [8] =
      (sampleState, .error Err.keyExists) :=
  C5_create_key_exists sampleState "other" otherMn [7] [8] sampleKeyRecord
    rfl (by decide)

/-- Claim C3 (confirmed).  The MasterRecord's pub is unchanged by every
successful ChangePassword and every successful RecoverPassword, and
RecoverPassword fails with wrongMnemonic leaving the whole state unchanged
whenever the public key derived from the supplied mnemonic differs from the
stored pub. -/
theorem C3_master_pub_stable :
    (∀ (st : KmState) (pass newpass : String) (salt nonce : Bytes)
        (st' : KmState) (u : Unit),
      ChangePassword st pass newpass salt nonce = (st', .ok u) →
      (lookupA MainKey st'.config).map KeyRecord.pub =
        (lookupA MainKey st.config).map KeyRecord.pub) ∧
    (∀ (st : KmState) (mn : List String) (newpass : String)
        (salt nonce : Bytes) (st' : KmState) (u : Unit),
      RecoverPassword st mn newpass salt nonce = (st', .ok u) →
      (lookupA MainKey st'.config).map KeyRecord.pub =
        (lookupA MainKey st.config).map KeyRecord.pub) ∧
    (∀ (st : KmState) (mn : List String) (newpass : String)
        (salt nonce : Bytes) (r : KeyRecord) (seed : Bytes),
      lookupA MainKey st.config = some r →
      SeedFromMnemonic mn = .ok seed →
      GetECPubKey (Bip32MasterFromSeed seed) ≠ r.pub →
      RecoverPassword st mn newpass salt nonce =
        (st, .error Err.wrongMnemonic)) := by
  refine ⟨?_, ?_, ?_⟩
  · intro st pass newpass salt nonce st' u h
    unfold ChangePassword at h
    cases h1 : getAndDecryptKey st MainKey pass with
    | error e =>
      rw [h1] at h
      exact absurd h (by simp)
    | ok kp =>
      obtain ⟨key, pub⟩ := kp
      obtain ⟨r, hM, hpub, _⟩ := getAndDecryptKey_ok st MainKey pass key pub h1
      rw [h1] at h
      dsimp only at h
      rw [encryptAndSetKey_spec, hM] at h
      simp only [if_true] at h
      injection h with hst _
      subst hst
      dsimp only
      rw [lookupA_setA_self, hM]
      dsimp only [Option.map]
      rw [hpub]
  · intro st mn newpass salt nonce st' u h
    unfold RecoverPassword at h
    cases hM : lookupA MainKey st.config with
    | none =>
      rw [hM] at h
      exact absurd h (by simp)
    | some r =>
      rw [hM] at h
      dsimp only at h
      cases hs : SeedFromMnemonic mn with
      | error e =>
        rw [hs] at h
        exact absurd h (by simp)
      | ok seed =>
        rw [hs] at h
        dsimp only at h
        by_cases hp : GetECPubKey (Bip32MasterFromSeed seed) = r.pub
        · rw [if_pos hp, encryptAndSetKey_spec, hM] at h
          simp only [if_true] at h
          injection h with hst _
          subst hst
          dsimp only
          rw [lookupA_setA_self]
          simp [Option.map]
        · rw [if_neg hp] at h
          exact absurd h (by simp)
  · intro st mn newpass salt nonce r seed hM hs hne
    unfold RecoverPassword
    rw [hM]
    dsimp only
    rw [hs]
    dsimp only
    rw [if_neg hne]

/-- Witness for C3: on `sampleState`, a password change and a recovery from
the matching mnemonic both preserve the stored pub, and recovery from a
different mnemonic fails with wrongMnemonic leaving the state unchanged. -/
theorem C3_master_pub_stable_witness :
    (lookupA MainKey
        (ChangePassword sampleState "pw" "new" [7] [8]).1.config).map
      KeyRecord.pub =
      (lookupA MainKey sampleState.config).map KeyRecord.pub ∧
    (lookupA MainKey
        (RecoverPassword sampleState sampleMn "new" [7] [8]).1.config).map
      KeyRecord.pub =
      (lookupA MainKey sampleState.config).map KeyRecord.pub ∧
    RecoverPassword sampleState otherMn "new" [7] [8] =
      (sampleState, .error Err.wrongMnemonic) := by
  have h := C3_master_pub_stable
  refine ⟨h.1 sampleState "pw" "new" [7] [8]
      (ChangePassword sampleState "pw" "new" [7] [8]).1 () (by rfl),
    h.2.1 sampleState sampleMn "new" [7] [8]
      (RecoverPassword sampleState sampleMn "new" [7] [8]).1 () (by rfl),
    h.2.2 sampleState otherMn "new" [7] [8] sampleKeyRecord
      (mnemonicBytes otherMn) rfl (by rfl) (by decide)⟩

/-- Claim C2 counterexample: MakeDelegate, on a state with a live session
and cached master but no record for "pup", lazily persists a DelegateRecord
whose pub field is the EMPTY byte string — not ECPub(child) at
m/1000'/2'/1' — so the claim fails for records persisted by MakeDelegate. -/
theorem C2_counterexample :
    lookupA "pup" (MakeDelegate sampleState "pup" "tok" 0).1.delegates =
      some ⟨[], [], none, [], 1⟩ ∧
    (⟨[], [], none, [], 1⟩ : DelegateRecord).pub ≠
      GetECPubKey (PrivateCKD sampleMaster
        [HardenedKey + 1000, HardenedKey + 2, HardenedKey + 1]) := by
  constructor
  · decide
  · decide

/-- Claim C2 (corrected).  Every DelegateRecord persisted by CreateDelegate
stores pub = ECPub(child) with child derived from the decrypted master at
the fixed all-hardened path m/1000'/2'/keyIndex' and keyIndex = max + 1;
MakeDelegate, when no record exists for the id, persists only a placeholder
record (empty salt, nonce, ciphertext and pub) reserving keyIndex =
max + 1. -/
theorem C2_delegate_pub :
    (∀ (st : KmState) (id pass tok : String) (salt nonce : Bytes)
        (st' : KmState) (res : String × Bytes) (m : Bip32Key)
        (key pub0 : Bytes),
      getAndDecryptKey st MainKey pass = .ok (key, pub0) →
      DecodeBip32WIF key = some m →
      CreateDelegate st id pass tok salt nonce = (st', .ok res) →
      ∃ rec : DelegateRecord, lookupA id st'.delegates = some rec ∧
        rec.keyIndex = GetMaxDelegate st.delegates + 1 ∧
        rec.pub = GetECPubKey (PrivateCKD m
          [HardenedKey + 1000, HardenedKey + 2, HardenedKey + rec.keyIndex])) ∧
    (∀ (st : KmState) (id token : String) (now : Nat) (s : Sess)
        (key : Bytes) (m : Bip32Key),
      lookupA token (cleanSessions now st).sessions = some s →
      (cleanSessions now st).key = some key →
      DecodeBip32WIF key = some m →
      lookupA id st.delegates = none →
      lookupA id (MakeDelegate st id token now).1.delegates =
        some ⟨[], [], none, [], GetMaxDelegate st.delegates + 1⟩) := by
  constructor
  · intro st id pass tok salt nonce st' res m key pub0 hga hdec hrun
    unfold CreateDelegate SetDelegate encryptKey at hrun
    rw [hga] at hrun
    dsimp only at hrun
    rw [hdec] at hrun
    dsimp only at hrun
    cases hL : lookupA id st.delegates with
    | some r =>
      rw [hL] at hrun
      exact absurd hrun (by simp)
    | none =>
      rw [hL] at hrun
      dsimp only at hrun
      injection hrun with h1 h2
      subst h1
      refine ⟨⟨salt, nonce,
        some ⟨tok, salt, nonce,
          EncodeWIF (PrivateCKD (PrivateCKD m [HardenedKey + 1000, HardenedKey + 2])
            [HardenedKey + (GetMaxDelegate st.delegates + 1)])⟩,
        GetECPubKey (PrivateCKD (PrivateCKD m [HardenedKey + 1000, HardenedKey + 2])
            [HardenedKey + (GetMaxDelegate st.delegates + 1)]),
        GetMaxDelegate st.delegates + 1⟩, ?_, rfl, ?_⟩
      · dsimp only
        rw [lookupA_append_of_none _ _ _ hL]
        simp [lookupA]
      · simp [PrivateCKD, List.append_assoc]
  · intro st id token now s key m hs hkey hdec hL
    unfold MakeDelegate SetDelegate
    dsimp only
    rw [hs, hkey]
    dsimp only
    rw [hdec]
    dsimp only
    have hL1 : lookupA id (cleanSessions now st).delegates = none := hL
    rw [hL1]
    dsimp only
    rw [lookupA_append_of_none _ _ _ hL1]
    simp [lookupA]
    rfl

/-- Witness for C2: CreateDelegate on `sampleState` stores a record with
keyIndex 1 and pub = ECPub of the child at m/1000'/2'/1'; MakeDelegate on a
fresh id lazily stores the empty placeholder with the reserved keyIndex. -/
theorem C2_delegate_pub_witness :
    (∃ rec : DelegateRecord,
      lookupA "pup"
        (CreateDelegate sampleState "pup" "pw" "dtok" [7] [8]).1.delegates =
        some rec ∧
      rec.keyIndex = GetMaxDelegate sampleState.delegates + 1 ∧
      rec.pub = GetECPubKey (PrivateCKD sampleMaster
        [HardenedKey + 1000, HardenedKey + 2, HardenedKey + rec.keyIndex])) ∧
    lookupA "pup2" (MakeDelegate sampleState "pup2" "tok" 0).1.delegates =
      some ⟨[], [], none, [], GetMaxDelegate sampleState.delegates + 1⟩ := by
  have h := C2_delegate_pub
  refine ⟨h.1 sampleState "pup" "pw" "dtok" [7] [8]
      (CreateDelegate sampleState "pup" "pw" "dtok" [7] [8]).1
      ("dtok", GetECPubKey (PrivateCKD sampleMaster
        [HardenedKey + 1000, HardenedKey + 2, HardenedKey + 1]))
      sampleMaster (EncodeWIF sampleMaster) (GetECPubKey sampleMaster)
      (by rfl) (decode_encode_wif sampleMaster) (by rfl),
    h.2 sampleState "pup2" "tok" 0 ⟨100, false⟩ (EncodeWIF sampleMaster)
      sampleMaster (by rfl) (by rfl) (decode_encode_wif sampleMaster)
      (by rfl)⟩

/-- The multiset of keyIndex values in the delegate table. -/
def keyIdxs (tbl : List (String × DelegateRecord)) : List Nat :=
  tbl.map (fun p => p.2.keyIndex)

theorem mem_keyIdxs_le_max (tbl : List (String × DelegateRecord)) (a : Nat)
    (h : a ∈ keyIdxs tbl) : a ≤ GetMaxDelegate tbl :=
  le_foldr_max a _ h

/-- Every operation preserves every existing delegate row unchanged. -/
theorem delegates_preserved (op : Op) (st : KmState) (id : String)
    (r : DelegateRecord) (h : lookupA id st.delegates = some r) :
    lookupA id (applyOp op st).delegates = some r := by
  cases op with
  | createKey pass mn salt nonce =>
    unfold applyOp
    rw [(createKey_frame st pass mn salt nonce).1]
    exact h
  | logIn pass tok now =>
    unfold applyOp
    rw [(logIn_frame st pass tok now).2]
    exact h
  | rollToken token newTok now =>
    unfold applyOp
    rw [(rollToken_frame st token newTok now).2.1]
    exact h
  | logOut token now =>
    unfold applyOp
    rw [(logOut_frame st token now).2]
    exact h
  | changePassword p np salt nonce =>
    unfold applyOp
    rw [(changePassword_frame st p np salt nonce).1]
    exact h
  | recoverPassword mn np salt nonce =>
    unfold applyOp
    rw [(recoverPassword_frame st mn np salt nonce).1]
    exact h
  | createDelegate id0 p t salt nonce =>
    unfold applyOp
    rcases createDelegate_tbl st id0 p t salt nonce with heq | ⟨_, _, _, heq⟩ <;>
      rw [heq]
    · exact h
    · exact lookupA_append_of_some _ _ _ _ h
  | makeDelegate id0 t now =>
    unfold applyOp
    rcases makeDelegate_tbl st id0 t now with heq | ⟨_, _, _, heq⟩ <;> rw [heq]
    · exact h
    · exact lookupA_append_of_some _ _ _ _ h
  | getDelegatePub id0 => exact h
  | getDelegatePriv id0 t => exact h

/-- A freshly appended record with keyIndex = max + 1 keeps the keyIndex
multiset duplicate-free. -/
theorem keyIdxs_nodup_append (tbl : List (String × DelegateRecord))
    (id : String) (rec : DelegateRecord)
    (hk : rec.keyIndex = GetMaxDelegate tbl + 1)
    (hn : (keyIdxs tbl).Nodup) : (keyIdxs (tbl ++ [(id, rec)])).Nodup := by
  unfold keyIdxs
  rw [List.map_append, List.nodup_append]
  refine ⟨hn, by simp, ?_⟩
  intro a ha hb
  simp only [List.map_cons, List.map_nil, List.mem_singleton] at hb
  have hle := mem_keyIdxs_le_max tbl a ha
  omega

/-- Claim C4 (confirmed).  keyIndex values stay unique across all
DelegateRecords under every operation; no operation mutates or removes an
existing record (so indexes are never reused or decremented); and a new
delegate created by CreateDelegate is assigned keyIndex = max(existing) + 1
(1 for the first delegate), strictly above every existing index.  In the
model the GetMaxDelegate read and the SetDelegate insert happen in one
atomic state transition, mirroring the single store transaction wrapping
them in the source. -/
theorem C4_keyIndex_unique :
    (∀ (op : Op) (st : KmState) (id : String) (r : DelegateRecord),
      lookupA id st.delegates = some r →
      lookupA id (applyOp op st).delegates = some r) ∧
    (∀ (op : Op) (st : KmState),
      (keyIdxs st.delegates).Nodup → (keyIdxs (applyOp op st).delegates).Nodup) ∧
    (∀ (st : KmState) (id pass tok : String) (salt nonce : Bytes)
        (st' : KmState) (res : String × Bytes),
      CreateDelegate st id pass tok salt nonce = (st', .ok res) →
      ∃ rec : DelegateRecord, lookupA id st'.delegates = some rec ∧
        rec.keyIndex = GetMaxDelegate st.delegates + 1 ∧
        (∀ (id' : String) (r' : DelegateRecord),
          lookupA id' st.delegates = some r' → r'.keyIndex < rec.keyIndex) ∧
        (st.delegates = [] → rec.keyIndex = 1)) := by
  refine ⟨delegates_preserved, ?_, ?_⟩
  · intro op st hn
    cases op with
    | createKey pass mn salt nonce =>
      unfold applyOp
      rw [show (CreateKey st pass mn salt nonce).1.delegates = st.delegates
        from (createKey_frame st pass mn salt nonce).1]
      exact hn
    | logIn pass tok now =>
      unfold applyOp
      rw [show (LogIn st pass tok now).1.delegates = st.delegates
        from (logIn_frame st pass tok now).2]
      exact hn
    | rollToken token newTok now =>
      unfold applyOp
      rw [show (RollToken st token newTok now).1.delegates = st.delegates
        from (rollToken_frame st token newTok now).2.1]
      exact hn
    | logOut token now =>
      unfold applyOp
      rw [show (LogOut st token now).delegates = st.delegates
        from (logOut_frame st token now).2]
      exact hn
    | changePassword p np salt nonce =>
      unfold applyOp
      rw [show (ChangePassword st p np salt nonce).1.delegates = st.delegates
        from (changePassword_frame st p np salt nonce).1]
      exact hn
    | recoverPassword mn np salt nonce =>
      unfold applyOp
      rw [show (RecoverPassword st mn np salt nonce).1.delegates = st.delegates
        from (recoverPassword_frame st mn np salt nonce).1]
      exact hn
    | createDelegate id0 p t salt nonce =>
      unfold applyOp
      rcases createDelegate_tbl st id0 p t salt nonce with heq | ⟨_, rec, hk, heq⟩ <;>
        rw [heq]
      · exact hn
      · exact keyIdxs_nodup_append st.delegates id0 rec hk hn
    | makeDelegate id0 t now =>
      unfold applyOp
      rcases makeDelegate_tbl st id0 t now with heq | ⟨_, rec, hk, heq⟩ <;> rw [heq]
      · exact hn
      · exact keyIdxs_nodup_append st.delegates id0 rec hk hn
    | getDelegatePub id0 => exact hn
    | getDelegatePriv id0 t => exact hn
  · intro st id pass tok salt nonce st' res hrun
    unfold CreateDelegate SetDelegate encryptKey at hrun
    cases hga : getAndDecryptKey st MainKey pass with
    | error e =>
      rw [hga] at hrun
      exact absurd hrun (by simp)
    | ok kp =>
      obtain ⟨key, pub0⟩ := kp
      rw [hga] at hrun
      dsimp only at hrun
      cases hdec : DecodeBip32WIF key with
      | none =>
        rw [hdec] at hrun
        exact absurd hrun (by simp)
      | some m =>
        rw [hdec] at hrun
        dsimp only at hrun
        cases hL : lookupA id st.delegates with
        | some r =>
          rw [hL] at hrun
          exact absurd hrun (by simp)
        | none =>
          rw [hL] at hrun
          dsimp only at hrun
          injection hrun with h1 h2
          subst h1
          refine ⟨⟨salt, nonce,
            some ⟨tok, salt, nonce,
              EncodeWIF (PrivateCKD (PrivateCKD m [HardenedKey + 1000, HardenedKey + 2])
                [HardenedKey + (GetMaxDelegate st.delegates + 1)])⟩,
            GetECPubKey (PrivateCKD (PrivateCKD m [HardenedKey + 1000, HardenedKey + 2])
                [HardenedKey + (GetMaxDelegate st.delegates + 1)]),
            GetMaxDelegate st.delegates + 1⟩, ?_, rfl, ?_, ?_⟩
          · dsimp only
            rw [lookupA_append_of_none _ _ _ hL]
            simp [lookupA]
          · intro id' r' hr'
            have := keyIndex_le_max st.delegates id' r' hr'
            dsimp only
            omega
          · intro hemp
            rw [hemp]
            rfl

/-- Witness for C4 at a concrete state carrying one delegate with
keyIndex 1: the row survives a LogOut, uniqueness survives a second
CreateDelegate, and the new record gets keyIndex 2 = max + 1. -/
theorem C4_keyIndex_unique_witness :
    lookupA "pupA" (applyOp (Op.logOut "tok" 0) sampleState2).delegates =
      some sampleDelegate ∧
    (keyIdxs (applyOp (Op.createDelegate "pupB" "pw" "dtok2" [7] [8])
      sampleState2).delegates).Nodup ∧
    (∃ rec : DelegateRecord,
      lookupA "pupB"
        (CreateDelegate sampleState2 "pupB" "pw" "dtok2" [7] [8]).1.delegates =
        some rec ∧
      rec.keyIndex = GetMaxDelegate sampleState2.delegates + 1 ∧
      (∀ (id' : String) (r' : DelegateRecord),
        lookupA id' sampleState2.delegates = some r' →
        r'.keyIndex < rec.keyIndex) ∧
      (sampleState2.delegates = [] → rec.keyIndex = 1)) := by
  have h := C4_keyIndex_unique
  refine ⟨h.1 (Op.logOut "tok" 0) sampleState2 "pupA" sampleDelegate (by decide),
    h.2.1 (Op.createDelegate "pupB" "pw" "dtok2" [7] [8]) sampleState2 (by decide),
    h.2.2 sampleState2 "pupB" "pw" "dtok2" [7] [8]
      (CreateDelegate sampleState2 "pupB" "pw" "dtok2" [7] [8]).1
      ("dtok2", GetECPubKey (PrivateCKD sampleMaster
        [HardenedKey + 1000, HardenedKey + 2, HardenedKey + 2]))
      (by rfl)⟩

/-- Claim C6 (confirmed).  RollToken succeeds exactly when the token is in
the session table, not already rolled, and not expired; on success it marks
the old token rolled with expires = now + HandoverTime and returns the
fresh token newTok recorded with a full-lifetime session; on any other call
it returns badToken and removes the token; any other live token's session
is untouched; and the durable store and cached master are untouched.
Hypotheses: the session map has no duplicate keys (a Go map invariant) and
the freshly drawn token differs from the rolled one. -/
theorem C6_roll_token (st : KmState) (token newTok : String) (now : Nat)
    (st' : KmState) (res : Except Err (String × Nat))
    (hn : (st.sessions.map Prod.fst).Nodup) (hne : newTok ≠ token)
    (hrun : RollToken st token newTok now = (st', res)) :
    ((∃ s : Sess, lookupA token st.sessions = some s ∧ s.rolled = false ∧
        now < s.expires) →
      res = .ok (newTok, SessionTime) ∧
      lookupA token st'.sessions = some ⟨now + HandoverTime, true⟩ ∧
      lookupA newTok st'.sessions =
        some ⟨now + (SessionTime + HandoverTime), false⟩) ∧
    ((¬ ∃ s : Sess, lookupA token st.sessions = some s ∧ s.rolled = false ∧
        now < s.expires) →
      res = .error .badToken ∧ lookupA token st'.sessions = none) ∧
    (∀ (u : String) (s : Sess), u ≠ token → u ≠ newTok →
      lookupA u st.sessions = some s → now ≤ s.expires →
      lookupA u st'.sessions = some s) ∧
    st'.config = st.config ∧ st'.delegates = st.delegates ∧
    st'.key = st.key := by
  have hkeep : ∀ (u : String) (sx : Sess), now ≤ sx.expires →
      (fun p : String × Sess => !decide (p.2.expires < now)) (u, sx) = true := by
    intro u sx hx
    simp only [Bool.not_eq_true', decide_eq_false_iff_not]
    omega
  unfold RollToken newSession at hrun
  dsimp only at hrun
  cases hL : lookupA token st.sessions with
  | none =>
    have hcs : lookupA token (cleanSessions now st).sessions = none :=
      lookupA_filter_none _ _ _ hL
    rw [hcs] at hrun
    dsimp only at hrun
    injection hrun with h1 h2
    subst h1
    subst h2
    refine ⟨?_, ?_, ?_, rfl, rfl, rfl⟩
    · rintro ⟨s, hs, _, _⟩
      exact absurd hs (by simp)
    · intro _
      exact ⟨rfl, lookupA_delA_self _ _⟩
    · intro u s hu hun hus hexp
      dsimp only
      rw [lookupA_delA_ne _ _ _ hu]
      exact lookupA_filter_of_keep _ _ _ _ hus (hkeep u s hexp)
  | some s0 =>
    by_cases hexp0 : s0.expires < now
    · have hcs : lookupA token (cleanSessions now st).sessions = none := by
        show lookupA token
          (st.sessions.filter (fun p => !decide (p.2.expires < now))) = none
        rw [lookupA_filter_nodup _ _ hn, hL]
        simp [hexp0]
      rw [hcs] at hrun
      dsimp only at hrun
      injection hrun with h1 h2
      subst h1
      subst h2
      refine ⟨?_, ?_, ?_, rfl, rfl, rfl⟩
      · rintro ⟨s, hs, hroll, hlt⟩
        injection hs with hs0
        subst hs0
        exact absurd hlt (by omega)
      · intro _
        exact ⟨rfl, lookupA_delA_self _ _⟩
      · intro u s hu hun hus hexp
        dsimp only
        rw [lookupA_delA_ne _ _ _ hu]
        exact lookupA_filter_of_keep _ _ _ _ hus (hkeep u s hexp)
    · have hcs : lookupA token (cleanSessions now st).sessions = some s0 :=
        lookupA_filter_of_keep _ _ _ _ hL (hkeep token s0 (by omega))
      rw [hcs] at hrun
      dsimp only at hrun
      by_cases hcond : s0.rolled = false ∧ now < s0.expires
      · rw [if_pos hcond] at hrun
        injection hrun with h1 h2
        subst h1
        subst h2
        refine ⟨?_, ?_, ?_, rfl, rfl, rfl⟩
        · intro _
          refine ⟨rfl, ?_, ?_⟩
          · dsimp only
            rw [lookupA_setA_ne _ _ _ _ (Ne.symm hne)]
            exact lookupA_setA_self _ _ _
          · dsimp only
            exact lookupA_setA_self _ _ _
        · intro hno
          exact absurd ⟨s0, rfl, hcond.1, hcond.2⟩ hno
        · intro u s hu hun hus hexp
          dsimp only
          rw [lookupA_setA_ne _ _ _ _ hun, lookupA_setA_ne _ _ _ _ hu]
          exact lookupA_filter_of_keep _ _ _ _ hus (hkeep u s hexp)
      · rw [if_neg hcond] at hrun
        injection hrun with h1 h2
        subst h1
        subst h2
        refine ⟨?_, ?_, ?_, rfl, rfl, rfl⟩
        · rintro ⟨s, hs, hroll, hlt⟩
          injection hs with hs0
          subst hs0
          exact absurd ⟨hroll, hlt⟩ hcond
        · intro _
          exact ⟨rfl, lookupA_delA_self _ _⟩
        · intro u s hu hun hus hexp
          dsimp only
          rw [lookupA_delA_ne _ _ _ hu]
          exact lookupA_filter_of_keep _ _ _ _ hus (hkeep u s hexp)

/-- Witness for C6: rolling the live token of `sampleState` at time 0
succeeds, marks it rolled with the short handover expiry, and records the
fresh token with the full lifetime. -/
theorem C6_roll_token_witness :
    (RollToken sampleState "tok" "t2" 0).2 = .ok ("t2", SessionTime) ∧
    lookupA "tok" (RollToken sampleState "tok" "t2" 0).1.sessions =
      some ⟨0 + HandoverTime, true⟩ ∧
    lookupA "t2" (RollToken sampleState "tok" "t2" 0).1.sessions =
      some ⟨0 + (SessionTime + HandoverTime), false⟩ := by
  have h := C6_roll_token sampleState "tok" "t2" 0
    (RollToken sampleState "tok" "t2" 0).1
    (RollToken sampleState "tok" "t2" 0).2
    (by decide) (by decide) rfl
  have hA := h.1 ⟨⟨100, false⟩, rfl, rfl, by decide⟩
  exact ⟨hA.1, hA.2.1, hA.2.2⟩

/-- A state whose only session has already expired, with a master still
cached. -/
def staleState : KmState :=
  { config := [], delegates := [],
    sessions := [("s1", ⟨5, false⟩)], key := some [9] }

/-- Claim C7 counterexample: the expiry sweep performed on entry to
RollToken removes the last (expired) session, yet the cached decrypted
master is NOT zeroed — it survives in the state — contradicting the claim
that the cached master is dropped whenever the last session is removed by
any operation's sweep. -/
theorem C7_counterexample :
    (RollToken staleState "x" "y" 10).1.sessions = [] ∧
    (RollToken staleState "x" "y" 10).1.key = some [9] ∧
    (RollToken staleState "x" "y" 10).2 = .error Err.badToken := by
  exact ⟨rfl, rfl, rfl⟩

/-- Claim C7 (corrected).  Only LogOut zeroes the cached master: after
LogOut, if no session remains the cached-master slot is nil, and if
sessions remain it is untouched; the expiry sweeps performed on entry to
RollToken, MakeDelegate and LogIn (on the failure path) never zero the
cached master even when they remove the last session. -/
theorem C7_cached_master_zeroing :
    (∀ (st : KmState) (token : String) (now : Nat),
      (LogOut st token now).sessions = [] → (LogOut st token now).key = none) ∧
    (∀ (st : KmState) (token : String) (now : Nat),
      (LogOut st token now).sessions ≠ [] → (LogOut st token now).key = st.key) ∧
    (∀ (st : KmState) (token newTok : String) (now : Nat),
      (RollToken st token newTok now).1.key = st.key) ∧
    (∀ (st : KmState) (id token : String) (now : Nat),
      (MakeDelegate st id token now).1.key = st.key) ∧
    (∀ (st : KmState) (pass tok : String) (now : Nat) (st' : KmState) (e : Err),
      LogIn st pass tok now = (st', .error e) → st'.key = st.key) := by
  refine ⟨?_, ?_, ?_, ?_, ?_⟩
  · intro st token now h
    unfold LogOut at h ⊢
    dsimp only at h ⊢
    by_cases hlen :
        (cleanSessions now { st with sessions := delA token st.sessions }).sessions.length < 1
    · rw [if_pos hlen]
    · rw [if_neg hlen] at h ⊢
      simp [h] at hlen
  · intro st token now h
    unfold LogOut at h ⊢
    dsimp only at h ⊢
    by_cases hlen :
        (cleanSessions now { st with sessions := delA token st.sessions }).sessions.length < 1
    · rw [if_pos hlen] at h ⊢
      dsimp only at h
      have : (cleanSessions now { st with sessions := delA token st.sessions }).sessions = [] := by
        cases hc : (cleanSessions now { st with sessions := delA token st.sessions }).sessions with
        | nil => rfl
        | cons a t =>
          rw [hc] at hlen
          simp at hlen
      exact absurd this h
    · rw [if_neg hlen]
      rfl
  · intro st token newTok now
    exact (rollToken_frame st token newTok now).2.2
  · intro st id token now
    exact (makeDelegate_frame st id token now).2
  · intro st pass tok now st' e h
    unfold LogIn newSession at h
    dsimp only at h
    cases hga : getAndDecryptKey (cleanSessions now st) MainKey pass with
    | error e0 =>
      rw [hga] at h
      injection h with h1 h2
      subst h1
      rfl
    | ok kp =>
      obtain ⟨key, pub⟩ := kp
      rw [hga] at h
      dsimp only at h
      injection h with h1 h2
      exact absurd h2 (by simp)

/-- Witness for C7: LogOut of the final session of `sampleState` leaves an
empty table and a nil cached master, while an entry sweep by RollToken on
`staleState` leaves the cached master in place. -/
theorem C7_cached_master_zeroing_witness :
    (LogOut sampleState "tok" 0).key = none ∧
    (RollToken staleState "x" "y" 10).1.key = staleState.key := by
  have h := C7_cached_master_zeroing
  exact ⟨h.1 sampleState "tok" 0 (by rfl), h.2.2.1 staleState "x" "y" 10⟩

/-- Claim C10 (confirmed).  LogOut is total (it returns a plain state, no
error value exists in its type) and never touches the durable store: config
and delegates are unchanged; its only effects are removing the given
token's session, pruning expired sessions (no session is ever added), and
zeroing the cached master exactly when the table ends up empty.  The
duplicate-free-keys hypothesis is the Go map invariant. -/
theorem C10_logout_total (st : KmState) (token : String) (now : Nat)
    (hn : (st.sessions.map Prod.fst).Nodup) :
    (LogOut st token now).config = st.config ∧
    (LogOut st token now).delegates = st.delegates ∧
    lookupA token (LogOut st token now).sessions = none ∧
    (∀ (u : String) (s : Sess), u ≠ token → lookupA u st.sessions = some s →
      now ≤ s.expires → lookupA u (LogOut st token now).sessions = some s) ∧
    (∀ (u : String) (s : Sess),
      lookupA u (LogOut st token now).sessions = some s →
      lookupA u st.sessions = some s ∧ now ≤ s.expires) ∧
    ((LogOut st token now).sessions = [] → (LogOut st token now).key = none) ∧
    ((LogOut st token now).sessions ≠ [] → (LogOut st token now).key = st.key) := by
  have hkeep : ∀ (u : String) (sx : Sess), now ≤ sx.expires →
      (fun p : String × Sess => !decide (p.2.expires < now)) (u, sx) = true := by
    intro u sx hx
    simp only [Bool.not_eq_true', decide_eq_false_iff_not]
    omega
  have hsess : (LogOut st token now).sessions =
      (delA token st.sessions).filter (fun p => !decide (p.2.expires < now)) := by
    unfold LogOut
    dsimp only
    by_cases hlen : (cleanSessions now
        { st with sessions := delA token st.sessions }).sessions.length < 1
    · rw [if_pos hlen]
      rfl
    · rw [if_neg hlen]
      rfl
  have hn2 : ((delA token st.sessions).map Prod.fst).Nodup := by
    unfold delA
    exact ((List.filter_sublist _).map Prod.fst).nodup hn
  refine ⟨(logOut_frame st token now).1, (logOut_frame st token now).2,
    ?_, ?_, ?_, ?_, ?_⟩
  · rw [hsess]
    exact lookupA_filter_none _ _ _ (lookupA_delA_self token st.sessions)
  · intro u s hu hus hexp
    rw [hsess]
    refine lookupA_filter_of_keep _ _ _ _ ?_ (hkeep u s hexp)
    rw [lookupA_delA_ne _ _ _ hu]
    exact hus
  · intro u s h
    rw [hsess, lookupA_filter_nodup _ _ hn2] at h
    cases hd : lookupA u (delA token st.sessions) with
    | none =>
      rw [hd] at h
      exact absurd h (by simp)
    | some s1 =>
      rw [hd] at h
      dsimp only [Option.bind] at h
      by_cases hp : (fun p : String × Sess => !decide (p.2.expires < now)) (u, s1) = true
      · rw [if_pos hp] at h
        injection h with h1
        subst h1
        by_cases hut : u = token
        · subst hut
          rw [lookupA_delA_self] at hd
          exact absurd hd (by simp)
        · rw [lookupA_delA_ne _ _ _ hut] at hd
          simp only [Bool.not_eq_true', decide_eq_false_iff_not] at hp
          exact ⟨hd, by omega⟩
      · rw [if_neg hp] at h
        exact absurd h (by simp)
  · intro h
    unfold LogOut at h ⊢
    dsimp only at h ⊢
    by_cases hlen : (cleanSessions now
        { st with sessions := delA token st.sessions }).sessions.length < 1
    · rw [if_pos hlen]
    · rw [if_neg hlen] at h ⊢
      simp [h] at hlen
  · intro h
    unfold LogOut at h ⊢
    dsimp only at h ⊢
    by_cases hlen : (cleanSessions now
        { st with sessions := delA token st.sessions }).sessions.length < 1
    · rw [if_pos hlen] at h ⊢
      dsimp only at h
      have hemp : (cleanSessions now
          { st with sessions := delA token st.sessions }).sessions = [] := by
        cases hc : (cleanSessions now
            { st with sessions := delA token st.sessions }).sessions with
        | nil => rfl
        | cons a t =>
          rw [hc] at hlen
          simp at hlen
      exact absurd hemp h
    · rw [if_neg hlen]
      rfl

/-- Witness for C10: logging out the only session of `sampleState2` leaves
the two tables untouched, removes the session and zeroes the cached
master. -/
theorem C10_logout_total_witness :
    (LogOut sampleState2 "tok" 0).config = sampleState2.config ∧
    (LogOut sampleState2 "tok" 0).delegates = sampleState2.delegates ∧
    lookupA "tok" (LogOut sampleState2 "tok" 0).sessions = none ∧
    (LogOut sampleState2 "tok" 0).key = none := by
  have h := C10_logout_total sampleState2 "tok" 0 (by decide)
  exact ⟨h.1, h.2.1, h.2.2.1, h.2.2.2.2.2.1 (by rfl)⟩

end DKM